import Mathlib

/-!
Shallow embedding of the RoleRadar job-aggregation core
(src/utils/location.py, src/connectors/amazon.py, src/connectors/dassault.py,
src/connectors/mathworks.py).

Python strings are modelled as `List Char` (`Str`).  The string primitives
used by the source (`str.strip`, `str.upper`, `str.lower`, `str.title`,
`re.sub` whitespace collapse, `str.split`, `str.replace` of single
characters) are modelled for the ASCII range, which is the range the
source's data and the spec's examples live in.

External collaborators that the spec declares out of scope (HTTP transport,
HTML tree queries, XML element parsing, feed tokenization, JSON decoding
of nested payload strings, the `re` regular-expression engine applied to
free page text, and `urllib.parse.urlparse`) are passed in as explicit
oracle functions; everything the repository itself computes is translated
from the source.
-/

abbrev Str := List Char

/-- ASCII whitespace recognised by Python's `str.strip` / `\s`. -/
def pyIsSpace (c : Char) : Bool :=
  c = ' ' || c = '\t' || c = '\n' || c = '\x0d' || c = '\x0b' || c = '\x0c'

/-- Python `str.strip()` (ASCII whitespace). -/
def pyStrip (s : Str) : Str :=
  ((s.dropWhile pyIsSpace).reverse.dropWhile pyIsSpace).reverse

/-- Python `str.upper()` restricted to ASCII, as an explicit table. -/
def pyToUpper : Char → Char
  | 'a' => 'A' | 'b' => 'B' | 'c' => 'C' | 'd' => 'D' | 'e' => 'E' | 'f' => 'F'
  | 'g' => 'G' | 'h' => 'H' | 'i' => 'I' | 'j' => 'J' | 'k' => 'K' | 'l' => 'L'
  | 'm' => 'M' | 'n' => 'N' | 'o' => 'O' | 'p' => 'P' | 'q' => 'Q' | 'r' => 'R'
  | 's' => 'S' | 't' => 'T' | 'u' => 'U' | 'v' => 'V' | 'w' => 'W' | 'x' => 'X'
  | 'y' => 'Y' | 'z' => 'Z' | c => c

/-- Python `str.lower()` restricted to ASCII, as an explicit table. -/
def pyToLower : Char → Char
  | 'A' => 'a' | 'B' => 'b' | 'C' => 'c' | 'D' => 'd' | 'E' => 'e' | 'F' => 'f'
  | 'G' => 'g' | 'H' => 'h' | 'I' => 'i' | 'J' => 'j' | 'K' => 'k' | 'L' => 'l'
  | 'M' => 'm' | 'N' => 'n' | 'O' => 'o' | 'P' => 'p' | 'Q' => 'q' | 'R' => 'r'
  | 'S' => 's' | 'T' => 't' | 'U' => 'u' | 'V' => 'v' | 'W' => 'w' | 'X' => 'x'
  | 'Y' => 'y' | 'Z' => 'z' | c => c

def pyUpper (s : Str) : Str := s.map pyToUpper

def pyLower (s : Str) : Str := s.map pyToLower

/-- A "cased" character in the ASCII range (Python `str.title` treats a
letter as starting a new word exactly when the previous character is not
cased). -/
def pyIsCased (c : Char) : Bool :=
  ('a' ≤ c && c ≤ 'z') || ('A' ≤ c && c ≤ 'Z')

/-- Worker for Python `str.title()`: `prevCased` says whether the previous
character was cased. -/
def pyTitleAux : Bool → Str → Str
  | _, [] => []
  | prevCased, c :: rest =>
    if pyIsCased c then
      (if prevCased then pyToLower c else pyToUpper c) :: pyTitleAux true rest
    else c :: pyTitleAux false rest

/-- Python `str.title()` (ASCII). -/
def pyTitle (s : Str) : Str := pyTitleAux false s

/-- Worker for the whitespace collapse: `inRun` says whether the previous
character was whitespace (so the current run already emitted its space). -/
def collapseWsAux : Bool → Str → Str
  | _, [] => []
  | inRun, c :: rest =>
    if pyIsSpace c then
      if inRun then collapseWsAux true rest
      else ' ' :: collapseWsAux true rest
    else c :: collapseWsAux false rest

/-- Model of `re.sub(r"\s+", " ", s)`: collapse every run of whitespace to one space. -/
def collapseWs (s : Str) : Str := collapseWsAux false s

/-- Source `src/utils/location.py::_clean_city`. -/
def _clean_city (city : Str) : Str :=
  let city := pyStrip city
  if city = [] then []
  else (pyTitle (collapseWs city)).map (fun c => if c = ' ' then '_' else c)

/-- Source `src/utils/location.py::normalize_location`. -/
def normalize_location (country state city : Option Str) : Option Str :=
  let c := pyUpper (pyStrip (country.getD []))
  let s := pyUpper (pyStrip (state.getD []))
  let ci := _clean_city (city.getD [])
  if c = [] ∧ s = [] ∧ ci = [] then none
  else some (c ++ '-' :: s ++ '-' :: ci)

/-- First split of a string at a hyphen, when one is present:
returns the part before the first `-` and the rest after it. -/
def splitFirstDash : Str → Option (Str × Str)
  | [] => none
  | c :: rest =>
    if c = '-' then some ([], rest)
    else match splitFirstDash rest with
      | none => none
      | some (a, b) => some (c :: a, b)

/-- Python `key.split("-", 2)`: split at the first two hyphens, at most
three parts, the last part absorbing any further hyphens. -/
def pySplitDash2 (s : Str) : List Str :=
  match splitFirstDash s with
  | none => [s]
  | some (a, r) =>
    match splitFirstDash r with
    | none => [a, r]
    | some (b, c) => [a, b, c]

/-- The placeholder literal returned by `display_location` for an absent or
empty key.  In the source file the em dash's UTF-8 bytes were decoded as
Latin-1, so the literal is the three characters below. -/
def emDashLit : Str := ['â', '€', '”']

/-- Source `src/utils/location.py::display_location`. -/
def display_location (key : Option Str) : Str :=
  match key with
  | none => emDashLit
  | some k =>
    if k = [] then emDashLit
    else
      match pySplitDash2 k with
      | [country, state, city] =>
        let cityDisp := city.map (fun c => if c = '_' then ' ' else c)
        if state = [] then cityDisp ++ ',' :: ' ' :: country
        else cityDisp ++ ',' :: ' ' :: state ++ ',' :: ' ' :: country
      | _ => k

example : normalize_location (some "us".data) (some "ma".data) (some "natick".data)
    = some "US-MA-Natick".data := by decide

example : normalize_location (some "".data) (some "".data) (some "".data) = none := by decide

example : display_location (some "US-MA-Natick".data) = "Natick, MA, US".data := by decide

example : display_location (some "FR--PARIS".data) = "PARIS, FR".data := by decide

example : display_location none = emDashLit := by decide

/-! ## SHA-256 (`hashlib.sha256(...).hexdigest()`), over `Nat` with explicit
`% 2 ^ 32` where 32-bit overflow matters.  Only the shape of the digest
(64 lowercase hex characters) is needed by the claims; the compression
function is nevertheless the standard one. -/

def M32 : Nat := 4294967296

def add32 (a b : Nat) : Nat := (a + b) % M32

/-- Rotate the 32-bit word `x` right by `n` bit positions. -/
def rotr32 (n x : Nat) : Nat := ((x >>> n) ||| ((x <<< (32 - n)) % M32)) % M32

def bsig0 (x : Nat) : Nat := rotr32 2 x ^^^ rotr32 13 x ^^^ rotr32 22 x

def bsig1 (x : Nat) : Nat := rotr32 6 x ^^^ rotr32 11 x ^^^ rotr32 25 x

def ssig0 (x : Nat) : Nat := rotr32 7 x ^^^ rotr32 18 x ^^^ (x >>> 3)

def ssig1 (x : Nat) : Nat := rotr32 17 x ^^^ rotr32 19 x ^^^ (x >>> 10)

def chF (e f g : Nat) : Nat := (e &&& f) ^^^ ((e ^^^ 4294967295) &&& g)

def majF (a b c : Nat) : Nat := (a &&& b) ^^^ (a &&& c) ^^^ (b &&& c)

/-- The 64 SHA-256 round constants. -/
def shaK : List Nat :=
  [1116352408, 1899447441, 3049323471, 3921009573,
   961987163, 1508970993, 2453635748, 2870763221,
   3624381080, 310598401, 607225278, 1426881987,
   1925078388, 2162078206, 2614888103, 3248222580,
   3835390401, 4022224774, 264347078, 604807628,
   770255983, 1249150122, 1555081692, 1996064986,
   2554220882, 2821834349, 2952996808, 3210313671,
   3336571891, 3584528711, 113926993, 338241895,
   666307205, 773529912, 1294757372, 1396182291,
   1695183700, 1986661051, 2177026350, 2456956037,
   2730485921, 2820302411, 3259730800, 3345764771,
   3516065817, 3600352804, 4094571909, 275423344,
   430227734, 506948616, 659060556, 883997877,
   958139571, 1322822218, 1537002063, 1747873779,
   1955562222, 2024104815, 2227730452, 2361852424,
   2428436474, 2756734187, 3204031479, 3329325298]

structure SHAState where
  a : Nat
  b : Nat
  c : Nat
  d : Nat
  e : Nat
  f : Nat
  g : Nat
  h : Nat
deriving DecidableEq

def shaInitState : SHAState :=
  ⟨1779033703, 3144134277, 1013904242, 2773480762,
   1359893119, 2600822924, 528734635, 1541459225⟩

/-- One round of the SHA-256 compression function, fed one (constant, word)
pair from the zipped round-constant / message-schedule lists. -/
def shaRound (st : SHAState) (kw : Nat × Nat) : SHAState :=
  let t1 := add32 st.h (add32 (bsig1 st.e) (add32 (chF st.e st.f st.g) (add32 kw.1 kw.2)))
  let t2 := add32 (bsig0 st.a) (majF st.a st.b st.c)
  ⟨add32 t1 t2, st.a, st.b, st.c, add32 st.d t1, st.e, st.f, st.g⟩

/-- Big-endian 4-byte groups to 32-bit words. -/
def bytesToWords : List Nat → List Nat
  | b0 :: b1 :: b2 :: b3 :: rest =>
      (b0 * 16777216 + b1 * 65536 + b2 * 256 + b3) :: bytesToWords rest
  | _ => []

/-- Extend the 16 message words to 64, `n` words still to append. -/
def extendSchedule : Nat → List Nat → List Nat
  | 0, w => w
  | n + 1, w =>
      let len := w.length
      extendSchedule n (w ++ [add32 (add32 (ssig1 (w.getD (len - 2) 0)) (w.getD (len - 7) 0))
                              (add32 (ssig0 (w.getD (len - 15) 0)) (w.getD (len - 16) 0))])

def compressBlock (st : SHAState) (block : List Nat) : SHAState :=
  let w := extendSchedule 48 (bytesToWords block)
  let t := (shaK.zip w).foldl shaRound st
  ⟨add32 st.a t.a, add32 st.b t.b, add32 st.c t.c, add32 st.d t.d,
   add32 st.e t.e, add32 st.f t.f, add32 st.g t.g, add32 st.h t.h⟩

/-- Big-endian 8-byte encoding of the bit length. -/
def lenBytes (v : Nat) : List Nat :=
  [v / 72057594037927936 % 256, v / 281474976710656 % 256, v / 1099511627776 % 256,
   v / 4294967296 % 256, v / 16777216 % 256, v / 65536 % 256, v / 256 % 256, v % 256]

/-- SHA-256 padding: `0x80`, zeros to 56 mod 64, then the 64-bit bit length. -/
def padBytes (msg : List Nat) : List Nat :=
  msg ++ 0x80 :: List.replicate ((119 - msg.length % 64) % 64) 0 ++ lenBytes (8 * msg.length)

/-- Fold the compression function over the 64-byte blocks of the padded
message. -/
def processBlocks : SHAState → List Nat → SHAState
  | st, [] => st
  | st, b :: rest => processBlocks (compressBlock st ((b :: rest).take 64)) ((b :: rest).drop 64)
termination_by _ l => l.length
decreasing_by
  simp only [List.drop, List.length_drop, List.length_cons]
  omega

/-- Lowercase hex digit for a nibble. -/
def hexDigit (n : Nat) : Char :=
  if n < 10 then Char.ofNat (48 + n) else Char.ofNat (87 + n)

/-- Eight lowercase hex characters of one 32-bit word, most significant
nibble first. -/
def wordToHex (w : Nat) : Str :=
  [hexDigit (w / 268435456 % 16), hexDigit (w / 16777216 % 16),
   hexDigit (w / 1048576 % 16), hexDigit (w / 65536 % 16),
   hexDigit (w / 4096 % 16), hexDigit (w / 256 % 16),
   hexDigit (w / 16 % 16), hexDigit (w % 16)]

def stateToHex (st : SHAState) : Str :=
  wordToHex st.a ++ wordToHex st.b ++ wordToHex st.c ++ wordToHex st.d ++
  wordToHex st.e ++ wordToHex st.f ++ wordToHex st.g ++ wordToHex st.h

/-- UTF-8 encoding of one character (`str.encode("utf-8")`, per char). -/
def utf8EncodeChar (c : Char) : List Nat :=
  let n := c.toNat
  if n < 128 then [n]
  else if n < 2048 then [192 ||| (n >>> 6), 128 ||| (n &&& 63)]
  else if n < 65536 then
    [224 ||| (n >>> 12), 128 ||| ((n >>> 6) &&& 63), 128 ||| (n &&& 63)]
  else
    [240 ||| (n >>> 18), 128 ||| ((n >>> 12) &&& 63),
     128 ||| ((n >>> 6) &&& 63), 128 ||| (n &&& 63)]

/-- Model of `hashlib.sha256(s.encode("utf-8")).hexdigest()` as a `Str`. -/
def sha256Hex (s : Str) : Str :=
  stateToHex (processBlocks shaInitState (padBytes (s.flatMap utf8EncodeChar)))

/-! ## Identity resolution.

There is no single `resolve_id` function under `src/`; each connector
inlines the same pattern (`amazon.py:147`, `dassault.py:179`,
`mathworks.py:57`).  `resolve_id` below is the shared operation the spec
describes; the per-connector stable-id computations are translated from
the source and proved to coincide with it. -/

/-- Python's `a or b` on optional strings: the first truthy (present and
non-empty) operand, else `b`. -/
def pyOrStr (a b : Option Str) : Option Str :=
  match a with
  | some s => if s = [] then b else some s
  | none => b

/-- Python's `a or d` where `d` is a plain string default. -/
def pyOrDefault (a : Option Str) (d : Str) : Str :=
  match a with
  | some s => if s = [] then d else s
  | none => d

/-- First present-and-non-empty entry of a priority list of optional ids. -/
def firstNonEmptyId : List (Option Str) → Option Str
  | [] => none
  | a :: rest =>
    match a with
    | some s => if s = [] then firstNonEmptyId rest else some s
    | none => firstNonEmptyId rest

/-- Modelled from the spec: §4.2's `resolve_id(company, preferred_ids,
canonical_url)` free function is described by the spec but not present as
a single definition under `src/`; the stable-id part is the first
non-empty preferred id, else the first 16 hex characters of the SHA-256
digest of the UTF-8-encoded canonical URL. -/
def resolve_id (preferred_ids : List (Option Str)) (canonical_url : Str) : Str :=
  match firstNonEmptyId preferred_ids with
  | some v => v
  | none => (sha256Hex canonical_url).take 16

/-- Modelled from the spec: §4.2's final job id `"{company}:{stable_id}"`. -/
def mkJobId (company stable_id : Str) : Str := company ++ ':' :: stable_id

/-- Lowercase-hex character predicate. -/
def isHexChar (c : Char) : Bool := c.isDigit || ('a' ≤ c && c ≤ 'f')

/-! ## Job record (the `@dataclass(frozen=True) Job` of the connector
files; `description` only exists in the Dassault variant and defaults to
absent). -/

structure Job where
  company : Str
  job_id : Str
  title : Str
  url : Str
  location : Option Str := none
  description : Option Str := none
deriving DecidableEq

/-- Insertion-ordered dict used by the connectors (`all_jobs[job_id] = job`):
replacing an existing key keeps its position, a new key is appended. -/
def dictInsert (m : List (Str × Job)) (k : Str) (v : Job) : List (Str × Job) :=
  if m.any (fun p => p.1 = k) then m.map (fun p => if p.1 = k then (k, v) else p)
  else m ++ [(k, v)]

/-! ## Feed connector (`src/connectors/mathworks.py`).

`feedparser` is a black-box collaborator: the parsed feed is a list of
entries, each a mapping of optional string fields (`entry.get(...)`). -/

structure FeedEntry where
  title : Option Str := none
  link : Option Str := none
  locationname : Option Str := none
  city : Option Str := none
  state : Option Str := none
  country : Option Str := none
deriving DecidableEq

/-- Source `src/connectors/mathworks.py::extract_location_from_entry`. -/
def extract_location_from_entry (e : FeedEntry) : Option Str :=
  let loc := pyStrip (e.locationname.getD [])
  if loc ≠ [] then some loc
  else
    let city := pyStrip (e.city.getD [])
    let state := pyStrip (e.state.getD [])
    let country := pyStrip (e.country.getD [])
    normalize_location (some country) (some state) (some city)

def mathworksCompany : Str := "MathWorks".data

/-- Source `src/connectors/mathworks.py::scrape_mathworks`.  The initial
`requests.get`/`raise_for_status` plus `feedparser.parse` is the
`fetchFeed` argument; a transport error propagates, otherwise each entry
is appended (no dedup map in this connector). -/
def scrape_mathworks (fetchFeed : Except Unit (List FeedEntry)) : Except Unit (List Job) :=
  match fetchFeed with
  | .error e => .error e
  | .ok entries =>
    .ok (entries.foldl (fun jobs e =>
      let title := pyStrip (e.title.getD [])
      let url := e.link.getD []
      if title = [] ∨ url = [] then jobs
      else
        let stable_id := (sha256Hex url).take 16
        let location := extract_location_from_entry e
        jobs ++ [{ company := mathworksCompany,
                   job_id := mathworksCompany ++ ':' :: stable_id,
                   title := title, url := url, location := location }]) [])

/-! ## Paginated-API connector (`src/connectors/amazon.py`).

`_request` (HTTP GET + `raise_for_status` + `r.json()`) is the `fetch`
oracle, keyed by the only varying parameter, `offset`; `json.loads`
applied to a nested location payload string is the `jsonLoads` oracle. -/

structure AmazonLocDict where
  normalizedCityName : Option Str := none
  city : Option Str := none
  region : Option Str := none
  normalizedStateName : Option Str := none
  countryIso2a : Option Str := none
  normalizedCountryCode : Option Str := none
deriving DecidableEq

/-- One element of the `locations` payload list: a JSON string, a dict, or
some other JSON value. -/
inductive AmazonLocEntry where
  | str (s : Str)
  | dict (d : AmazonLocDict)
  | other
deriving DecidableEq

structure AmazonItem where
  title : Option Str := none
  job_path : Option Str := none
  id : Option Str := none
  job_id : Option Str := none
  locations : Option (List AmazonLocEntry) := none
  country_code : Option Str := none
  state : Option Str := none
  city : Option Str := none
deriving DecidableEq

structure AmazonResponse where
  jobs : List AmazonItem := []
  hits : Option Int := none
deriving DecidableEq

def amazonBase : Str := "https://www.amazon.jobs".data

def amazonCompany : Str := "Amazon".data

/-- Source `src/connectors/amazon.py::_extract_amazon_location`. -/
def _extract_amazon_location (jsonLoads : Str → Option AmazonLocDict)
    (j : AmazonItem) : Option Str :=
  let fallback := normalize_location j.country_code j.state j.city
  match j.locations with
  | some (first :: _) =>
    let d : Option AmazonLocDict :=
      match first with
      | .str s => jsonLoads s
      | .dict d => some d
      | .other => none
    match d with
    | some d =>
      normalize_location
        (pyOrStr d.countryIso2a d.normalizedCountryCode)
        (pyOrStr d.region d.normalizedStateName)
        (pyOrStr d.normalizedCityName d.city)
    | none => fallback
  | _ => fallback

/-- Source `amazon.py:147`: `str(j.get("id") or j.get("job_id") or
hashlib.sha256(url.encode()).hexdigest()[:16])`. -/
def amazonStableId (j : AmazonItem) (url : Str) : Str :=
  pyOrDefault (pyOrStr j.id j.job_id) ((sha256Hex url).take 16)

/-- The per-item body of `scrape_amazon`'s inner `for` loop: skip items
with empty title or missing `job_path`, otherwise insert into the
accumulation dict keyed by the derived job id. -/
def amazonProcessItem (jsonLoads : Str → Option AmazonLocDict)
    (m : List (Str × Job)) (j : AmazonItem) : List (Str × Job) :=
  let title := pyStrip (j.title.getD [])
  let job_path := j.job_path.getD []
  if title = [] ∨ job_path = [] then m
  else
    let url := amazonBase ++ job_path
    let stable := amazonStableId j url
    let jid := amazonCompany ++ ':' :: stable
    let location := _extract_amazon_location jsonLoads j
    dictInsert m jid
      { company := amazonCompany, job_id := jid, title := title, url := url,
        location := location }

structure AmazonState where
  offset : Nat
  all_jobs : List (Str × Job)
  pages_fetched : Nat
  consecutive_no_new : Nat
deriving DecidableEq

/-- Result of one iteration of `scrape_amazon`'s `while True` loop. -/
inductive AmazonStepRes where
  | halt (s : AmazonState)
  | cont (s : AmazonState)
  | fail
deriving DecidableEq

/-- Source `if max_pages is not None and pages_fetched >= max_pages`. -/
def capReached (cap : Option Nat) (n : Nat) : Bool :=
  match cap with
  | some m => n ≥ m
  | none => false

/-- One iteration of `scrape_amazon`'s loop (`amazon.py:114-176`), in
source order: page cap, fetch (an error is NOT caught here), empty-page
halt, per-item processing, page counter, stall counter with halt at 3,
offset advance by the page's actual length, optional hits-based halt. -/
def amazonStep (fetch : Nat → Except Unit AmazonResponse)
    (jsonLoads : Str → Option AmazonLocDict) (max_pages : Option Nat)
    (s : AmazonState) : AmazonStepRes :=
  if capReached max_pages s.pages_fetched then .halt s
  else
    match fetch s.offset with
    | .error _ => .fail
    | .ok data =>
      if data.jobs = [] then .halt s
      else
        let before := s.all_jobs.length
        let m := data.jobs.foldl (amazonProcessItem jsonLoads) s.all_jobs
        let cnn := if m.length = before then s.consecutive_no_new + 1 else 0
        let s1 : AmazonState :=
          { offset := s.offset, all_jobs := m, pages_fetched := s.pages_fetched + 1,
            consecutive_no_new := cnn }
        if cnn ≥ 3 then .halt s1
        else
          let s2 := { s1 with offset := s.offset + data.jobs.length }
          match data.hits with
          | some h => if (s2.offset : Int) ≥ h then .halt s2 else .cont s2
          | none => .cont s2

/-- Outcome of running the loop with the given fuel. -/
inductive AmazonRun where
  | halted (s : AmazonState)
  | failed
  | fuelOut (s : AmazonState)
deriving DecidableEq

def amazonLoop (fetch : Nat → Except Unit AmazonResponse)
    (jsonLoads : Str → Option AmazonLocDict) (max_pages : Option Nat) :
    Nat → AmazonState → AmazonRun
  | 0, s => .fuelOut s
  | fuel + 1, s =>
    match amazonStep fetch jsonLoads max_pages s with
    | .halt t => .halted t
    | .fail => .failed
    | .cont t => amazonLoop fetch jsonLoads max_pages fuel t

def amazonInit : AmazonState := ⟨0, [], 0, 0⟩

/-- Source `src/connectors/amazon.py::scrape_amazon`: run the loop from the
initial state and return `list(all_jobs.values())`; `none` means the fuel
ran out before the loop decided. -/
def scrape_amazon (fetch : Nat → Except Unit AmazonResponse)
    (jsonLoads : Str → Option AmazonLocDict) (max_pages : Option Nat)
    (fuel : Nat) : Option (Except Unit (List Job)) :=
  match amazonLoop fetch jsonLoads max_pages fuel amazonInit with
  | .halted s => some (.ok (s.all_jobs.map Prod.snd))
  | .failed => some (.error ())
  | .fuelOut _ => none

/-! ## Sitemap-crawl connector (`src/connectors/dassault.py`).

Oracles: `fetch` is `_get` (session GET + `raise_for_status`);
`parseLocs` is `_iter_sitemap_locs` (whose `ET.fromstring` can raise, and
that exception is NOT caught by the crawl loop); `isJobUrl` is
`_is_job_url` (urlparse + host check + `JOB_PATH_RE`); `soupTitle` is the
h1-else-title-tag text extraction; `soupText` is `soup.get_text`;
`findRefId`/`findLoc` are the `REFID_RE`/`LOCATION_RE` regex searches on
the page text; `findUrlId` is `NUMERIC_ID_RE` on `urlparse(url).path`. -/

structure DsOracles where
  fetch : Str → Except Unit Str
  parseLocs : Str → Except Unit (List Str)
  isJobUrl : Str → Bool
  soupTitle : Str → Str
  soupText : Str → Str
  findRefId : Str → Option Str
  findLoc : Str → Option Str
  findUrlId : Str → Option Str

def dassaultCompany : Str := "Dassault Systemes".data

def sitemapIndexUrl : Str := "https://www.3ds.com/sitemap/sitemap.xml".data

/-- Model of `needle in hay` on strings. -/
def strContains (hay needle : Str) : Bool :=
  hay.tails.any (fun t => needle.isPrefixOf t)

/-- Model of `s.endswith(suffix)`. -/
def strEndsWith (s suffix : Str) : Bool := suffix.isSuffixOf s

/-- Python `loc_raw.split(",")` (full split on commas). -/
def pySplitComma : Str → List Str
  | [] => [[]]
  | c :: rest =>
    if c = ',' then [] :: pySplitComma rest
    else
      match pySplitComma rest with
      | [] => [[c]]
      | p :: ps => (c :: p) :: ps

/-- Source `src/connectors/dassault.py::_normalize_ds_location`. -/
def _normalize_ds_location (loc_raw : Str) : Option Str :=
  if loc_raw = [] then none
  else
    let parts := ((pySplitComma loc_raw).map pyStrip).filter (fun p => p ≠ [])
    match parts with
    | [] => none
    | country_raw :: _ =>
      let country_l := pyLower country_raw
      if country_l = "united states".data ∨ country_l = "us".data ∨
         country_l = "usa".data ∨ country_l = "united states of america".data then
        let state := parts.getD 1 []
        let city := parts.getD 2 []
        normalize_location (some "US".data) (some state) (some city)
      else
        if parts.length ≥ 3 then
          normalize_location (some country_raw) (some (parts.getD 1 []))
            (some (parts.getD 2 []))
        else
          normalize_location (some country_raw) (some [])
            (some (parts.getD 1 []))

/-- Source `dassault.py:179`: `ref_id or url_id or
hashlib.sha256(url.encode()).hexdigest()[:16]`. -/
def dassaultStableId (ref_id url_id : Option Str) (url : Str) : Str :=
  pyOrDefault (pyOrStr ref_id url_id) ((sha256Hex url).take 16)

/-- Source `src/connectors/dassault.py::_parse_job_detail`. -/
def _parse_job_detail (o : DsOracles) (html url : Str) : Option Job :=
  let title := pyStrip (o.soupTitle html)
  if title = [] then none
  else
    let text := o.soupText html
    let ref_id := (o.findRefId text).map pyStrip
    let loc_raw := (o.findLoc text).map pyStrip
    let location_key := _normalize_ds_location (loc_raw.getD [])
    let url_id := o.findUrlId url
    let stable_id := dassaultStableId ref_id url_id url
    let jid := dassaultCompany ++ ':' :: stable_id
    some { company := dassaultCompany, job_id := jid, title := title, url := url,
           location := location_key }

/-- The classification `for loc in _iter_sitemap_locs(xml_text)` loop:
nested sitemaps (`.xml` under `/sitemap/`) not yet visited are appended
to the queue, job-shaped URLs are recorded once. -/
def classifyLocs (isJobUrl : Str → Bool) (visited : List Str) :
    List Str → List Str → List Str → List Str × List Str
  | [], queue, jobs => (queue, jobs)
  | loc :: rest, queue, jobs =>
    if strEndsWith loc ".xml".data && strContains loc "/sitemap/".data then
      classifyLocs isJobUrl visited rest
        (if loc ∈ visited then queue else queue ++ [loc]) jobs
    else if isJobUrl loc then
      classifyLocs isJobUrl visited rest queue
        (if loc ∈ jobs then jobs else jobs ++ [loc])
    else classifyLocs isJobUrl visited rest queue jobs

inductive CrawlRes where
  | ok (job_urls : List Str)
  | parseFail
  | fuelOut
deriving DecidableEq

/-- Crawl outcome plus the ghost trace of every URL passed to `_get`, in
order, used to state fetch-count properties. -/
structure CrawlOut where
  res : CrawlRes
  fetched : List Str
deriving DecidableEq

/-- Source `src/connectors/dassault.py::_collect_job_urls_from_sitemaps` loop:
FIFO queue, visited-set checked on pop, fetch failures caught and the
sitemap skipped, XML parse failures propagated. -/
def crawlLoop (o : DsOracles) (cap : Option Nat) :
    Nat → List Str → List Str → List Str → List Str → CrawlOut
  | 0, _, _, _, trace => ⟨.fuelOut, trace⟩
  | fuel + 1, to_visit, visited, job_urls, trace =>
    match to_visit with
    | [] => ⟨.ok job_urls, trace⟩
    | sm :: rest =>
      if capReached cap visited.length then ⟨.ok job_urls, trace⟩
      else if sm ∈ visited then crawlLoop o cap fuel rest visited job_urls trace
      else
        let visited' := sm :: visited
        let trace' := trace ++ [sm]
        match o.fetch sm with
        | .error _ => crawlLoop o cap fuel rest visited' job_urls trace'
        | .ok xml =>
          match o.parseLocs xml with
          | .error _ => ⟨.parseFail, trace'⟩
          | .ok locs =>
            let qj := classifyLocs o.isJobUrl visited' locs rest job_urls
            crawlLoop o cap fuel qj.1 visited' qj.2 trace'

/-- Phase 2 of `scrape_dassault`: fetch each discovered job URL (failures
skipped), parse the detail page, insert into the dict keyed by job id. -/
def dassaultDetailFold (o : DsOracles) (urls : List Str) : List (Str × Job) :=
  urls.foldl (fun m url =>
    match o.fetch url with
    | .error _ => m
    | .ok html =>
      match _parse_job_detail o html url with
      | none => m
      | some job => dictInsert m job.job_id job) []

/-- Source `src/connectors/dassault.py::scrape_dassault`: sitemap discovery, then
detail fetch + extraction; `none` means the crawl's fuel ran out. -/
def scrape_dassault (o : DsOracles) (max_jobs max_sitemaps : Option Nat)
    (fuel : Nat) : Option (Except Unit (List Job)) :=
  let crawl := crawlLoop o max_sitemaps fuel [sitemapIndexUrl] [] [] []
  match crawl.res with
  | .fuelOut => none
  | .parseFail => some (.error ())
  | .ok job_urls =>
    let urls := match max_jobs with | none => job_urls | some m => job_urls.take m
    some (.ok ((dassaultDetailFold o urls).map Prod.snd))

/-! ## Helper lemmas for the Location Normalizer claims. -/

theorem pyTitleAux_length (s : Str) : ∀ b, (pyTitleAux b s).length = s.length := by
  induction s with
  | nil => intro b; rfl
  | cons c rest ih =>
    intro b
    simp only [pyTitleAux]
    split <;> simp [ih]

theorem collapseWs_ne_nil (c : Char) (rest : Str) : collapseWs (c :: rest) ≠ [] := by
  simp only [collapseWs, collapseWsAux]
  split <;> simp

theorem _clean_city_eq_nil_iff (ci : Str) : _clean_city ci = [] ↔ pyStrip ci = [] := by
  unfold _clean_city
  rcases h : pyStrip ci with _ | ⟨c, rest⟩
  · simp
  · have h1 : collapseWs (c :: rest) ≠ [] := collapseWs_ne_nil c rest
    have h2 : pyTitle (collapseWs (c :: rest)) ≠ [] := by
      intro he
      have hl := pyTitleAux_length (collapseWs (c :: rest)) false
      rw [pyTitle] at he
      rw [he] at hl
      exact h1 (List.length_eq_zero.mp hl.symm)
    simp [h1, h2]

theorem pyUpper_eq_nil_iff (s : Str) : pyUpper s = [] ↔ s = [] := by
  simp [pyUpper]

/-- C3: `normalize_location` trims all three inputs and returns the absent
value exactly when all three are empty after trimming; otherwise it
returns `COUNTRY-STATE-CITY` with country and state stripped and
uppercased and the city cleaned by `_clean_city` (whitespace collapsed,
title-cased, spaces to underscores), including the spec's two examples. -/
theorem C3_normalize_trims_and_formats :
    (∀ country state city : Option Str,
      (normalize_location country state city = none ↔
        pyStrip (country.getD []) = [] ∧ pyStrip (state.getD []) = [] ∧
        pyStrip (city.getD []) = []) ∧
      (normalize_location country state city = none ∨
       normalize_location country state city =
         some (pyUpper (pyStrip (country.getD [])) ++ '-' ::
               pyUpper (pyStrip (state.getD [])) ++ '-' ::
               _clean_city (city.getD [])))) ∧
    normalize_location (some "".data) (some "".data) (some "".data) = none ∧
    normalize_location (some "us".data) (some "ma".data) (some "natick".data) =
      some "US-MA-Natick".data := by
  refine ⟨fun country state city => ⟨?_, ?_⟩, by decide, by decide⟩
  · simp only [normalize_location]
    split
    · rename_i h
      obtain ⟨h1, h2, h3⟩ := h
      exact iff_of_true rfl
        ⟨(pyUpper_eq_nil_iff _).mp h1, (pyUpper_eq_nil_iff _).mp h2,
         (_clean_city_eq_nil_iff _).mp h3⟩
    · rename_i h
      refine iff_of_false (by simp) ?_
      intro ⟨h1, h2, h3⟩
      exact h ⟨(pyUpper_eq_nil_iff _).mpr h1, (pyUpper_eq_nil_iff _).mpr h2,
               (_clean_city_eq_nil_iff _).mpr h3⟩
  · simp only [normalize_location]
    split
    · exact Or.inl rfl
    · exact Or.inr rfl

/-! ## Helper lemmas for the display formatter claims. -/

theorem splitFirstDash_append (a b : Str) (h : '-' ∉ a) :
    splitFirstDash (a ++ '-' :: b) = some (a, b) := by
  induction a with
  | nil => simp [splitFirstDash]
  | cons c r ih =>
    have hc : ¬ c = '-' := fun e => h (e ▸ List.mem_cons_self c r)
    have hr : '-' ∉ r := fun hm => h (List.mem_cons_of_mem _ hm)
    simp [splitFirstDash, hc, ih hr]

theorem pySplitDash2_canonical (C S CI : Str) (hC : '-' ∉ C) (hS : '-' ∉ S) :
    pySplitDash2 (C ++ '-' :: S ++ '-' :: CI) = [C, S, CI] := by
  simp [pySplitDash2, splitFirstDash_append C (S ++ '-' :: CI) hC,
        splitFirstDash_append S CI hS]

theorem pySplitDash2_parts_le (s : Str) : (pySplitDash2 s).length ≤ 3 := by
  unfold pySplitDash2
  rcases h1 : splitFirstDash s with _ | ⟨a, r⟩
  · simp [h1]
  · rcases h2 : splitFirstDash r with _ | ⟨b, c⟩ <;> simp [h1, h2]

/-- C10: for an absent (`None`) or empty-string key, `display_location`
returns the fixed non-empty placeholder (the mojibake em dash literal of
the source) rather than falling through to the malformed-key fallback; in
particular `display_location` of the empty string is not the empty string
returned unchanged. -/
theorem C10_display_absent_placeholder :
    display_location none = emDashLit ∧
    display_location (some []) = emDashLit ∧
    emDashLit ≠ [] ∧
    display_location (some []) ≠ [] := by
  refine ⟨rfl, by decide, by decide, by decide⟩

/-- C7: `display_location` splits the key on `-` with at most 2 splits
into at most 3 parts; a non-3-part split returns the key unchanged;
exactly 3 parts reconstruct `City, State, Country` with the state omitted
when empty and underscores in the city turned back into spaces; and a
city segment containing hyphens is absorbed verbatim into the third part. -/
theorem C7_display_split_behavior :
    (∀ key : Str, (pySplitDash2 key).length ≤ 3) ∧
    (∀ key : Str, key ≠ [] → (pySplitDash2 key).length ≠ 3 →
      display_location (some key) = key) ∧
    (∀ key C S CI, key ≠ [] → pySplitDash2 key = [C, S, CI] →
      display_location (some key) =
        if S = [] then (CI.map (fun c => if c = '_' then ' ' else c)) ++ ',' :: ' ' :: C
        else (CI.map (fun c => if c = '_' then ' ' else c)) ++
               ',' :: ' ' :: S ++ ',' :: ' ' :: C) ∧
    (∀ C S CI : Str, '-' ∉ C → '-' ∉ S →
      pySplitDash2 (C ++ '-' :: S ++ '-' :: CI) = [C, S, CI]) := by
  refine ⟨pySplitDash2_parts_le, ?_, ?_, pySplitDash2_canonical⟩
  · intro key hk h3
    simp only [display_location, if_neg hk]
    rcases h : pySplitDash2 key with _ | ⟨a, _ | ⟨b, _ | ⟨c, _ | _⟩⟩⟩ <;>
      simp_all
  · intro key C S CI hk h
    simp only [display_location, if_neg hk, h]

/-! ## Helper lemmas for the normalize/display round trip (C4). -/

theorem pyToUpper_eq_dash (c : Char) (h : pyToUpper c = '-') : c = '-' := by
  unfold pyToUpper at h
  split at h <;> first | exact h | exact absurd h (by decide)

theorem pyStrip_subset (s : Str) : pyStrip s ⊆ s := by
  intro a ha
  unfold pyStrip at ha
  rw [List.mem_reverse] at ha
  have h1 := (List.dropWhile_sublist (p := pyIsSpace)
    (l := (s.dropWhile pyIsSpace).reverse)).subset ha
  rw [List.mem_reverse] at h1
  exact (List.dropWhile_sublist (p := pyIsSpace) (l := s)).subset h1

theorem dash_not_mem_pyUpper (s : Str) (h : '-' ∉ s) : '-' ∉ pyUpper s := by
  intro hm
  rcases List.mem_map.mp hm with ⟨x, hx, he⟩
  have : x = '-' := pyToUpper_eq_dash x he
  exact h (this ▸ hx)

/-- C4 (amended): for valid triples with no literal hyphen in any
component, displaying the normalized key yields a string containing the
cleaned city (title-cased, whitespace collapsed, with underscores and
spaces shown as spaces), the stripped-and-uppercased state, and the
stripped-and-uppercased country. -/
theorem C4_display_normalize_roundtrip (country state city : Str)
    (hvalid : ¬ (pyStrip country = [] ∧ pyStrip state = [] ∧ pyStrip city = []))
    (hco : '-' ∉ country) (hst : '-' ∉ state) (hci : '-' ∉ city) :
    pyUpper (pyStrip country) <:+:
      display_location (normalize_location (some country) (some state) (some city)) ∧
    pyUpper (pyStrip state) <:+:
      display_location (normalize_location (some country) (some state) (some city)) ∧
    (_clean_city city).map (fun c => if c = '_' then ' ' else c) <:+:
      display_location (normalize_location (some country) (some state) (some city)) := by
  have hC : '-' ∉ pyUpper (pyStrip country) :=
    dash_not_mem_pyUpper _ (fun hm => hco (pyStrip_subset _ hm))
  have hS : '-' ∉ pyUpper (pyStrip state) :=
    dash_not_mem_pyUpper _ (fun hm => hst (pyStrip_subset _ hm))
  have hkey : normalize_location (some country) (some state) (some city) =
      some (pyUpper (pyStrip country) ++ '-' :: pyUpper (pyStrip state) ++
            '-' :: _clean_city city) := by
    simp only [normalize_location, Option.getD_some]
    rw [if_neg]
    intro ⟨h1, h2, h3⟩
    exact hvalid ⟨(pyUpper_eq_nil_iff _).mp h1, (pyUpper_eq_nil_iff _).mp h2,
                  (_clean_city_eq_nil_iff _).mp h3⟩
  rw [hkey]
  have hk : pyUpper (pyStrip country) ++ '-' :: pyUpper (pyStrip state) ++
      '-' :: _clean_city city ≠ [] := by simp
  simp only [display_location, if_neg hk, pySplitDash2_canonical _ _ _ hC hS]
  by_cases hSe : pyUpper (pyStrip state) = []
  · simp only [hSe, if_pos rfl]
    refine ⟨⟨(_clean_city city).map (fun c => if c = '_' then ' ' else c) ++ [',', ' '],
             [], by simp⟩,
            ⟨[], (_clean_city city).map (fun c => if c = '_' then ' ' else c) ++
              ',' :: ' ' :: pyUpper (pyStrip country), by simp⟩,
            ⟨[], ',' :: ' ' :: pyUpper (pyStrip country), by simp⟩⟩
  · rw [if_neg hSe]
    refine ⟨⟨(_clean_city city).map (fun c => if c = '_' then ' ' else c) ++
              ',' :: ' ' :: pyUpper (pyStrip state) ++ [',', ' '], [], by simp⟩,
            ⟨(_clean_city city).map (fun c => if c = '_' then ' ' else c) ++ [',', ' '],
             ',' :: ' ' :: pyUpper (pyStrip country), by simp⟩,
            ⟨[], ',' :: ' ' :: pyUpper (pyStrip state) ++ ',' :: ' ' ::
              pyUpper (pyStrip country), by simp⟩⟩

/-- C4 counterexample: with the lowercase inputs of the spec's own example
the displayed string does not contain the untouched state `"ma"` (the
normalizer uppercases it), refuting the claim as stated. -/
theorem C4_counterexample :
    ¬ ("ma".data <:+: display_location
        (normalize_location (some "us".data) (some "ma".data) (some "natick".data))) := by
  decide

/-- Closed witness for the round-trip theorem at the spec's example
triple. -/
theorem C4_witness :
    "US".data <:+: display_location
      (normalize_location (some "us".data) (some "ma".data) (some "natick".data)) ∧
    "MA".data <:+: display_location
      (normalize_location (some "us".data) (some "ma".data) (some "natick".data)) ∧
    "Natick".data <:+: display_location
      (normalize_location (some "us".data) (some "ma".data) (some "natick".data)) :=
  C4_display_normalize_roundtrip "us".data "ma".data "natick".data
    (by decide) (by decide) (by decide) (by decide)

/-- Closed witness for the display-split theorem at a concrete key with a
hyphenated city segment. -/
theorem C7_witness :
    pySplitDash2 "US-NY-New_York-East".data =
      ["US".data, "NY".data, "New_York-East".data] ∧
    display_location (some "US-NY-New_York-East".data) = "New York-East, NY, US".data := by
  constructor
  · exact C7_display_split_behavior.2.2.2 "US".data "NY".data "New_York-East".data
      (by decide) (by decide)
  · have h := C7_display_split_behavior.2.2.1 "US-NY-New_York-East".data
      "US".data "NY".data "New_York-East".data (by decide) (by decide)
    rw [h]
    decide

/-! ## Helper lemmas for identity resolution (C6). -/

theorem isHexChar_hexDigit_mod (n : Nat) : isHexChar (hexDigit (n % 16)) = true := by
  have h : n % 16 < 16 := Nat.mod_lt _ (by decide)
  set m := n % 16 with hm
  interval_cases m <;> decide

theorem wordToHex_length (w : Nat) : (wordToHex w).length = 8 := rfl

theorem sha256Hex_length (s : Str) : (sha256Hex s).length = 64 := by
  simp [sha256Hex, stateToHex, wordToHex]

theorem wordToHex_hex (w : Nat) : ∀ c ∈ wordToHex w, isHexChar c = true := by
  intro c hc
  simp only [wordToHex, List.mem_cons, List.not_mem_nil, or_false] at hc
  rcases hc with h | h | h | h | h | h | h | h <;> subst h <;>
    exact isHexChar_hexDigit_mod _

theorem sha256Hex_hex (s : Str) : ∀ c ∈ sha256Hex s, isHexChar c = true := by
  intro c hc
  simp only [sha256Hex, stateToHex, List.mem_append] at hc
  rcases hc with ((((((h | h) | h) | h) | h) | h) | h) | h <;>
    exact wordToHex_hex _ _ h

theorem pyOr_two_resolve (a b : Option Str) (url : Str) :
    pyOrDefault (pyOrStr a b) ((sha256Hex url).take 16) = resolve_id [a, b] url := by
  rcases a with _ | s
  · rcases b with _ | t
    · rfl
    · by_cases ht : t = [] <;>
        simp [pyOrStr, pyOrDefault, resolve_id, firstNonEmptyId, ht]
  · by_cases hs : s = []
    · rcases b with _ | t
      · simp [pyOrStr, pyOrDefault, resolve_id, firstNonEmptyId, hs]
      · by_cases ht : t = [] <;>
          simp [pyOrStr, pyOrDefault, resolve_id, firstNonEmptyId, hs, ht]
    · simp [pyOrStr, pyOrDefault, resolve_id, firstNonEmptyId, hs]

/-- C6: identity resolution picks the first non-empty preferred upstream
id; when all are empty or absent, the stable id is the first 16 hex
characters of the SHA-256 digest of the UTF-8-encoded canonical URL (16
characters long, all lowercase hex); the final job id is exactly
`company:stable_id`; the Amazon and Dassault inline computations are
instances of the shared resolver and MathWorks always uses the hash; and
the resolver is deterministic in its inputs. -/
theorem C6_identity_resolution :
    (∀ (preferred_ids : List (Option Str)) (url v : Str),
      firstNonEmptyId preferred_ids = some v → resolve_id preferred_ids url = v) ∧
    (∀ (preferred_ids : List (Option Str)) (url : Str),
      firstNonEmptyId preferred_ids = none →
        resolve_id preferred_ids url = (sha256Hex url).take 16 ∧
        (resolve_id preferred_ids url).length = 16 ∧
        ∀ c ∈ resolve_id preferred_ids url, isHexChar c = true) ∧
    (∀ company stable : Str, mkJobId company stable = company ++ ':' :: stable) ∧
    (∀ (j : AmazonItem) (url : Str),
      amazonStableId j url = resolve_id [j.id, j.job_id] url) ∧
    (∀ (ref_id url_id : Option Str) (url : Str),
      dassaultStableId ref_id url_id url = resolve_id [ref_id, url_id] url) ∧
    (∀ url : Str, (sha256Hex url).take 16 = resolve_id [] url) ∧
    (∀ (ids : List (Option Str)) (url₁ url₂ : Str), url₁ = url₂ →
      resolve_id ids url₁ = resolve_id ids url₂) := by
  refine ⟨?_, ?_, fun _ _ => rfl, ?_, ?_, fun _ => rfl, fun ids u₁ u₂ h => h ▸ rfl⟩
  · intro ids url v h
    simp [resolve_id, h]
  · intro ids url h
    have he : resolve_id ids url = (sha256Hex url).take 16 := by simp [resolve_id, h]
    refine ⟨he, ?_, ?_⟩
    · rw [he, List.length_take, sha256Hex_length]
      decide
    · intro c hc
      rw [he] at hc
      exact sha256Hex_hex url c (List.take_subset _ _ hc)
  · intro j url
    exact pyOr_two_resolve j.id j.job_id url
  · intro ref_id url_id url
    exact pyOr_two_resolve ref_id url_id url

/-- Closed witness for identity resolution: a present preferred id wins;
with no preferred ids the hash prefix is used. -/
theorem C6_witness :
    resolve_id [some "546412".data, none] "u".data = "546412".data ∧
    resolve_id [none, some "".data] "u".data = (sha256Hex "u".data).take 16 ∧
    mkJobId "Amazon".data "1".data = "Amazon:1".data :=
  ⟨C6_identity_resolution.1 [some "546412".data, none] "u".data "546412".data (by decide),
   (C6_identity_resolution.2.1 [none, some "".data] "u".data (by decide)).1,
   by have h := C6_identity_resolution.2.2.1 "Amazon".data "1".data
      rw [h]; decide⟩

/-! ## The paginated-API stall counter (C5). -/

/-- A source that reports a million hits but returns the same single item
on every page. -/
def stallItem : AmazonItem :=
  { title := some "T".data, job_path := some "/p".data, id := some "1".data }

def stallFetch : Nat → Except Unit AmazonResponse :=
  fun _ => .ok { jobs := [stallItem], hits := some 1000000 }

def stallJob : Job :=
  { company := amazonCompany, job_id := "Amazon:1".data, title := "T".data,
    url := "https://www.amazon.jobs/p".data, location := none }

def stallMap : List (Str × Job) := [("Amazon:1".data, stallJob)]

/-- The state in which the stalling traversal halts: the one unique job,
4 pages fetched, stall counter at 3. -/
def stallFinal : AmazonState := ⟨3, stallMap, 4, 3⟩

theorem amazonLoop_halted_mono (fetch : Nat → Except Unit AmazonResponse)
    (jl : Str → Option AmazonLocDict) (mp : Option Nat) :
    ∀ fuel s t, amazonLoop fetch jl mp fuel s = .halted t →
      ∀ k, amazonLoop fetch jl mp (fuel + k) s = .halted t := by
  intro fuel
  induction fuel with
  | zero => intro s t h k; simp [amazonLoop] at h
  | succ n ih =>
    intro s t h k
    have he : n + 1 + k = (n + k) + 1 := by omega
    rw [he]
    simp only [amazonLoop] at h ⊢
    rcases hs : amazonStep fetch jl mp s with u | u | _ <;> rw [hs] at h
    · exact h
    · exact ih u t h k
    · exact h

/-- C5: a page that adds no new unique job ids increments the stall
counter, a page that adds at least one resets it to 0, the loop halts as
soon as the counter reaches 3 (before the hits check, hence regardless of
the reported hit count); consequently a source repeating one item forever
is abandoned after 4 page fetches. -/
theorem C5_stall_counter :
    (∀ (fetch : Nat → Except Unit AmazonResponse)
       (jsonLoads : Str → Option AmazonLocDict)
       (s : AmazonState) (data : AmazonResponse),
      fetch s.offset = .ok data → data.jobs ≠ [] →
      (∃ t, (amazonStep fetch jsonLoads none s = .halt t ∨
             amazonStep fetch jsonLoads none s = .cont t) ∧
        t.all_jobs = data.jobs.foldl (amazonProcessItem jsonLoads) s.all_jobs ∧
        t.consecutive_no_new =
          (if (data.jobs.foldl (amazonProcessItem jsonLoads) s.all_jobs).length =
              s.all_jobs.length
           then s.consecutive_no_new + 1 else 0)) ∧
      ((if (data.jobs.foldl (amazonProcessItem jsonLoads) s.all_jobs).length =
           s.all_jobs.length
        then s.consecutive_no_new + 1 else 0) ≥ 3 →
        amazonStep fetch jsonLoads none s =
          .halt { offset := s.offset,
                  all_jobs := data.jobs.foldl (amazonProcessItem jsonLoads) s.all_jobs,
                  pages_fetched := s.pages_fetched + 1,
                  consecutive_no_new :=
                    if (data.jobs.foldl (amazonProcessItem jsonLoads) s.all_jobs).length =
                        s.all_jobs.length
                    then s.consecutive_no_new + 1 else 0 })) ∧
    (∀ k, amazonLoop stallFetch (fun _ => none) none (4 + k) amazonInit = .halted stallFinal ∧
          stallFinal.pages_fetched = 4) := by
  constructor
  · intro fetch jl s data hf hj
    constructor
    · simp only [amazonStep, capReached, Bool.false_eq_true, if_false, hf, if_neg hj]
      by_cases h3 : (if (data.jobs.foldl (amazonProcessItem jl) s.all_jobs).length =
          s.all_jobs.length then s.consecutive_no_new + 1 else 0) ≥ 3
      · rw [if_pos h3]
        exact ⟨_, Or.inl rfl, rfl, rfl⟩
      · rw [if_neg h3]
        rcases data.hits with _ | h
        · exact ⟨_, Or.inr rfl, rfl, rfl⟩
        · dsimp only
          by_cases hh : ((s.offset + data.jobs.length : Nat) : Int) ≥ h
          · rw [if_pos hh]
            exact ⟨_, Or.inl rfl, rfl, rfl⟩
          · rw [if_neg hh]
            exact ⟨_, Or.inr rfl, rfl, rfl⟩
    · intro h3
      simp only [amazonStep, capReached, Bool.false_eq_true, if_false, hf, if_neg hj]
      rw [if_pos h3]
  · intro k
    refine ⟨?_, rfl⟩
    have h4 : amazonLoop stallFetch (fun _ => none) none 4 amazonInit = .halted stallFinal := by
      decide
    exact amazonLoop_halted_mono stallFetch (fun _ => none) none 4 amazonInit stallFinal h4 k

/-- Closed witness for the stall counter: in the stalling scenario's
fourth iteration the counter hits 3 and the step halts. -/
theorem C5_witness :
    amazonStep stallFetch (fun _ => none) none ⟨3, stallMap, 3, 2⟩ = .halt stallFinal ∧
    amazonLoop stallFetch (fun _ => none) none (4 + 0) amazonInit = .halted stallFinal := by
  constructor
  · exact (C5_stall_counter.1 stallFetch (fun _ => none) ⟨3, stallMap, 3, 2⟩
      { jobs := [stallItem], hits := some 1000000 } rfl (by decide)).2 (by decide)
  · exact (C5_stall_counter.2 0).1

/-! ## Sitemap crawl: visited-set and cap (C9). -/

theorem crawl_trace_ok (o : DsOracles) (cap : Option Nat) :
    ∀ fuel tv vis jobs tr, tr.Nodup → (∀ u ∈ tr, u ∈ vis) →
      vis.length = tr.length →
      ((crawlLoop o cap fuel tv vis jobs tr).fetched.Nodup ∧
       ∀ m, cap = some m → tr.length ≤ m →
         (crawlLoop o cap fuel tv vis jobs tr).fetched.length ≤ m) := by
  intro fuel
  induction fuel with
  | zero =>
    intro tv vis jobs tr h1 h2 h3
    exact ⟨h1, fun m hm hle => hle⟩
  | succ n ih =>
    intro tv vis jobs tr h1 h2 h3
    rcases tv with _ | ⟨sm, rest⟩
    · exact ⟨h1, fun m hm hle => hle⟩
    · simp only [crawlLoop]
      by_cases hcap : capReached cap vis.length
      · rw [if_pos hcap]
        exact ⟨h1, fun m hm hle => hle⟩
      · rw [if_neg hcap]
        by_cases hv : sm ∈ vis
        · rw [if_pos hv]
          exact ih rest vis jobs tr h1 h2 h3
        · rw [if_neg hv]
          have htr' : (tr ++ [sm]).Nodup := by
            rw [List.nodup_append]
            refine ⟨h1, List.nodup_singleton sm, ?_⟩
            intro a ha hb
            rw [List.mem_singleton] at hb
            exact hv (hb ▸ h2 a ha)
          have hsub' : ∀ u ∈ tr ++ [sm], u ∈ sm :: vis := by
            intro u hu
            rcases List.mem_append.mp hu with h | h
            · exact List.mem_cons_of_mem _ (h2 u h)
            · rw [List.mem_singleton] at h
              exact h ▸ List.mem_cons_self sm vis
          have hlen' : (sm :: vis).length = (tr ++ [sm]).length := by
            simp [h3]
          have hboundlt : ∀ m, cap = some m → tr.length ≤ m → (tr ++ [sm]).length ≤ m := by
            intro m hm hle
            subst hm
            simp only [capReached, ge_iff_le, decide_eq_true_eq] at hcap
            simp only [List.length_append, List.length_singleton]
            omega
          rcases hf : o.fetch sm with e | xml
          · exact ih rest (sm :: vis) jobs (tr ++ [sm]) htr' hsub' hlen' |>.imp id
              (fun hb m hm hle => hb m hm (hboundlt m hm hle))
          · dsimp only
            rcases hp : o.parseLocs xml with e | locs
            · try rw [hp]
              exact ⟨htr', hboundlt⟩
            · try rw [hp]
              dsimp only
              exact ih _ (sm :: vis) _ (tr ++ [sm]) htr' hsub' hlen' |>.imp id
                (fun hb m hm hle => hb m hm (hboundlt m hm hle))

/-- C9: a sitemap URL is fetched at most once per traversal (the ghost
fetch trace of a crawl started from the root has no duplicates, however
often a URL recurs in parents' loc lists), and when the optional cap is
supplied the number of sitemaps fetched is bounded by it. -/
theorem C9_sitemap_visited_once (o : DsOracles) (cap : Option Nat) (fuel : Nat) :
    (crawlLoop o cap fuel [sitemapIndexUrl] [] [] []).fetched.Nodup ∧
    (∀ m, cap = some m →
      (crawlLoop o cap fuel [sitemapIndexUrl] [] [] []).fetched.length ≤ m) := by
  have h := crawl_trace_ok o cap fuel [sitemapIndexUrl] [] [] []
    List.nodup_nil (by intro u hu; cases hu) rfl
  exact ⟨h.1, fun m hm => h.2 m hm (Nat.zero_le m)⟩

/-- Oracles whose root fetch fails; used for closed instantiations. -/
def oStub : DsOracles :=
  { fetch := fun _ => .error (), parseLocs := fun _ => .ok [],
    isJobUrl := fun _ => false, soupTitle := fun _ => [], soupText := fun _ => [],
    findRefId := fun _ => none, findLoc := fun _ => none, findUrlId := fun _ => none }

/-- Closed witness for the visited-set theorem, at a capped stub crawl. -/
theorem C9_witness :
    (crawlLoop oStub (some 2) 3 [sitemapIndexUrl] [] [] []).fetched.Nodup ∧
    (crawlLoop oStub (some 2) 3 [sitemapIndexUrl] [] [] []).fetched.length ≤ 2 :=
  ⟨(C9_sitemap_visited_once oStub (some 2) 3).1,
   (C9_sitemap_visited_once oStub (some 2) 3).2 2 rfl⟩

/-! ## Dict invariants for job-id uniqueness / format and canonical
locations (C2, C8). -/

/-- An entry of a connector's accumulation dict is keyed by its own
job id, carries the connector's company display name, and its key has the
`<Company>:<stable-id>` shape. -/
def jobWellFormed (company : Str) (p : Str × Job) : Prop :=
  p.2.job_id = p.1 ∧ p.2.company = company ∧ ∃ st, p.1 = company ++ ':' :: st

/-- A location value the Location Normalizer can produce (this includes
`none`). -/
def canonicalLoc (o : Option Str) : Prop :=
  ∃ c s ci, normalize_location c s ci = o

def mapOk (company : Str) (m : List (Str × Job)) : Prop :=
  (m.map Prod.fst).Nodup ∧
  ∀ p ∈ m, jobWellFormed company p ∧ canonicalLoc p.2.location

theorem mapOk_nil (company : Str) : mapOk company [] :=
  ⟨List.nodup_nil, fun p hp => absurd hp (List.not_mem_nil p)⟩

theorem dictInsert_ok (company : Str) (m : List (Str × Job)) (k : Str) (v : Job)
    (hm : mapOk company m) (hv : jobWellFormed company (k, v))
    (hloc : canonicalLoc v.location) :
    mapOk company (dictInsert m k v) := by
  unfold dictInsert
  by_cases h : m.any (fun p => p.1 = k)
  · rw [if_pos h]
    constructor
    · have heq : (m.map (fun p => if p.1 = k then (k, v) else p)).map Prod.fst =
          m.map Prod.fst := by
        rw [List.map_map]
        apply List.map_congr_left
        intro p _
        by_cases hpk : p.1 = k <;> simp [hpk]
      rw [heq]
      exact hm.1
    · intro p hp
      rcases List.mem_map.mp hp with ⟨q, hq, rfl⟩
      by_cases hqk : q.1 = k
      · simp only [if_pos hqk]
        exact ⟨hv, hloc⟩
      · simp only [if_neg hqk]
        exact hm.2 q hq
  · rw [if_neg h]
    have hk : k ∉ m.map Prod.fst := by
      intro hkm
      rcases List.mem_map.mp hkm with ⟨q, hq, hqe⟩
      exact h (List.any_eq_true.mpr ⟨q, hq, by simp [hqe]⟩)
    constructor
    · rw [List.map_append]
      simp only [List.map_cons, List.map_nil]
      rw [List.nodup_append]
      refine ⟨hm.1, List.nodup_singleton k, ?_⟩
      intro a ha hb
      rw [List.mem_singleton] at hb
      exact hk (hb ▸ ha)
    · intro p hp
      rcases List.mem_append.mp hp with hin | hone
      · exact hm.2 p hin
      · rw [List.mem_singleton] at hone
        subst hone
        exact ⟨hv, hloc⟩

/-- The location the Amazon extractor derives is always produced by the
normalizer. -/
theorem extract_amazon_canonical (jl : Str → Option AmazonLocDict) (j : AmazonItem) :
    canonicalLoc (_extract_amazon_location jl j) := by
  unfold canonicalLoc _extract_amazon_location
  rcases j.locations with _ | ⟨_ | ⟨first, rest⟩⟩
  · exact ⟨_, _, _, rfl⟩
  · exact ⟨_, _, _, rfl⟩
  · rcases first with s | d | _
    · dsimp only
      rcases jl s with _ | d
      · exact ⟨_, _, _, rfl⟩
      · exact ⟨_, _, _, rfl⟩
    · exact ⟨_, _, _, rfl⟩
    · exact ⟨_, _, _, rfl⟩

theorem amazonProcessItem_ok (jl : Str → Option AmazonLocDict)
    (m : List (Str × Job)) (j : AmazonItem) (hm : mapOk amazonCompany m) :
    mapOk amazonCompany (amazonProcessItem jl m j) := by
  unfold amazonProcessItem
  dsimp only
  split
  · exact hm
  · exact dictInsert_ok _ _ _ _ hm ⟨rfl, rfl, _, rfl⟩ (extract_amazon_canonical jl j)

theorem amazonFold_ok (jl : Str → Option AmazonLocDict) (items : List AmazonItem) :
    ∀ m, mapOk amazonCompany m →
      mapOk amazonCompany (items.foldl (amazonProcessItem jl) m) := by
  induction items with
  | nil => intro m hm; exact hm
  | cons j rest ih =>
    intro m hm
    exact ih _ (amazonProcessItem_ok jl m j hm)

theorem amazonStep_preserves (fetch : Nat → Except Unit AmazonResponse)
    (jl : Str → Option AmazonLocDict) (mp : Option Nat) (s : AmazonState)
    (hm : mapOk amazonCompany s.all_jobs) :
    ∀ t, (amazonStep fetch jl mp s = .halt t ∨ amazonStep fetch jl mp s = .cont t) →
      mapOk amazonCompany t.all_jobs := by
  intro t ht
  unfold amazonStep at ht
  dsimp only at ht
  repeat' split at ht
  all_goals rcases ht with h | h
  all_goals cases h
  all_goals first | exact hm | exact amazonFold_ok jl _ _ hm

theorem amazonLoop_preserves (fetch : Nat → Except Unit AmazonResponse)
    (jl : Str → Option AmazonLocDict) (mp : Option Nat) :
    ∀ fuel s t, mapOk amazonCompany s.all_jobs →
      amazonLoop fetch jl mp fuel s = .halted t → mapOk amazonCompany t.all_jobs := by
  intro fuel
  induction fuel with
  | zero => intro s t hm h; simp [amazonLoop] at h
  | succ n ih =>
    intro s t hm h
    simp only [amazonLoop] at h
    rcases hs : amazonStep fetch jl mp s with u | u | _ <;> rw [hs] at h
    · cases h
      exact amazonStep_preserves fetch jl mp s hm _ (Or.inl hs)
    · exact ih u t (amazonStep_preserves fetch jl mp s hm u (Or.inr hs)) h
    · cases h

/-- The location `_normalize_ds_location` derives is always produced by
the normalizer. -/
theorem ds_loc_canonical (raw : Str) : canonicalLoc (_normalize_ds_location raw) := by
  unfold canonicalLoc _normalize_ds_location
  split
  · exact ⟨none, none, none, by decide⟩
  · dsimp only
    split
    · exact ⟨none, none, none, by decide⟩
    · split
      · exact ⟨_, _, _, rfl⟩
      · split
        · exact ⟨_, _, _, rfl⟩
        · exact ⟨_, _, _, rfl⟩

theorem parse_job_detail_ok (o : DsOracles) (html url : Str) (job : Job)
    (h : _parse_job_detail o html url = some job) :
    jobWellFormed dassaultCompany (job.job_id, job) ∧ canonicalLoc job.location := by
  unfold _parse_job_detail at h
  dsimp only at h
  split at h
  · cases h
  · cases h
    exact ⟨⟨rfl, rfl, _, rfl⟩, ds_loc_canonical _⟩

theorem dsFoldAux_ok (o : DsOracles) :
    ∀ (urls : List Str) (m : List (Str × Job)), mapOk dassaultCompany m →
      mapOk dassaultCompany (urls.foldl (fun m url =>
        match o.fetch url with
        | .error _ => m
        | .ok html =>
          match _parse_job_detail o html url with
          | none => m
          | some job => dictInsert m job.job_id job) m) := by
  intro urls
  induction urls with
  | nil => intro m hm; exact hm
  | cons url rest ih =>
    intro m hm
    simp only [List.foldl_cons]
    apply ih
    rcases hf : o.fetch url with e | html
    · exact hm
    · dsimp only
      rcases hp : _parse_job_detail o html url with _ | job
      · try rw [hp]
        exact hm
      · try rw [hp]
        have hw := parse_job_detail_ok o html url job hp
        exact dictInsert_ok _ _ _ _ hm (by exact hw.1) hw.2

theorem dassaultDetailFold_ok (o : DsOracles) (urls : List Str) :
    mapOk dassaultCompany (dassaultDetailFold o urls) :=
  dsFoldAux_ok o urls [] (mapOk_nil _)

/-! ## Feed connector fold facts. -/

/-- The Job built by `scrape_mathworks` for one kept entry. -/
def mwJobOf (e : FeedEntry) : Job :=
  { company := mathworksCompany,
    job_id := mathworksCompany ++ ':' :: (sha256Hex (e.link.getD [])).take 16,
    title := pyStrip (e.title.getD []), url := e.link.getD [],
    location := extract_location_from_entry e }

theorem mw_fold_mem (entries : List FeedEntry) :
    ∀ (acc : List Job) (j : Job),
      j ∈ entries.foldl (fun jobs e =>
        if pyStrip (e.title.getD []) = [] ∨ e.link.getD [] = [] then jobs
        else jobs ++ [mwJobOf e]) acc →
      j ∈ acc ∨ ∃ e ∈ entries, j = mwJobOf e := by
  induction entries with
  | nil => intro acc j h; exact Or.inl h
  | cons e rest ih =>
    intro acc j h
    simp only [List.foldl_cons] at h
    rcases ih _ j h with hacc | ⟨e', he', he⟩
    · by_cases hc : pyStrip (e.title.getD []) = [] ∨ e.link.getD [] = []
      · rw [if_pos hc] at hacc
        exact Or.inl hacc
      · rw [if_neg hc] at hacc
        rcases List.mem_append.mp hacc with h1 | h1
        · exact Or.inl h1
        · rw [List.mem_singleton] at h1
          exact Or.inr ⟨e, List.mem_cons_self _ _, h1⟩
    · exact Or.inr ⟨e', List.mem_cons_of_mem _ he', he⟩

theorem mw_location_ok (e : FeedEntry) :
    canonicalLoc (extract_location_from_entry e) ∨
    (pyStrip (e.locationname.getD []) ≠ [] ∧
     extract_location_from_entry e = some (pyStrip (e.locationname.getD []))) := by
  unfold extract_location_from_entry
  dsimp only
  by_cases h : pyStrip (e.locationname.getD []) ≠ []
  · rw [if_pos h]
    exact Or.inr ⟨h, rfl⟩
  · rw [if_neg h]
    exact Or.inl ⟨_, _, _, rfl⟩

theorem mkJobId_ne_nil (company st : Str) : company ++ ':' :: st ≠ [] := by
  simp

theorem mapOk_values (company : Str) (m : List (Str × Job)) (hm : mapOk company m) :
    ((m.map Prod.snd).map Job.job_id).Nodup ∧
    ∀ j ∈ m.map Prod.snd, j.job_id ≠ [] ∧ j.company = company ∧
      ∃ st, j.job_id = company ++ ':' :: st := by
  constructor
  · rw [List.map_map]
    have he : m.map (Job.job_id ∘ Prod.snd) = m.map Prod.fst :=
      List.map_congr_left (fun p hp => (hm.2 p hp).1.1)
    rw [he]
    exact hm.1
  · intro j hj
    rcases List.mem_map.mp hj with ⟨p, hp, rfl⟩
    obtain ⟨⟨h1, h2, st, h3⟩, _⟩ := hm.2 p hp
    refine ⟨?_, h2, st, h1.trans h3⟩
    rw [h1.trans h3]
    exact mkJobId_ne_nil company st

/-- C2 (amended): the paginated-API and sitemap connectors return Jobs
with pairwise-distinct job ids (dict-keyed accumulation); every connector
returns job ids that are non-empty and of the form
`<Company>:<stable-id>` with the company display name before the colon;
the feed connector, however, appends to a plain list and can return
duplicate job ids when two entries share a link. -/
theorem C2_job_ids :
    (∀ fetch jl mp fuel jobs, scrape_amazon fetch jl mp fuel = some (.ok jobs) →
      (jobs.map Job.job_id).Nodup ∧
      ∀ j ∈ jobs, j.job_id ≠ [] ∧ j.company = amazonCompany ∧
        ∃ st, j.job_id = amazonCompany ++ ':' :: st) ∧
    (∀ o mj ms fuel jobs, scrape_dassault o mj ms fuel = some (.ok jobs) →
      (jobs.map Job.job_id).Nodup ∧
      ∀ j ∈ jobs, j.job_id ≠ [] ∧ j.company = dassaultCompany ∧
        ∃ st, j.job_id = dassaultCompany ++ ':' :: st) ∧
    (∀ entries jobs, scrape_mathworks (.ok entries) = .ok jobs →
      ∀ j ∈ jobs, j.job_id ≠ [] ∧ j.company = mathworksCompany ∧
        ∃ st, j.job_id = mathworksCompany ++ ':' :: st) := by
  refine ⟨?_, ?_, ?_⟩
  · intro fetch jl mp fuel jobs h
    unfold scrape_amazon at h
    rcases hl : amazonLoop fetch jl mp fuel amazonInit with s | _ | s <;> rw [hl] at h
    · simp only [Option.some.injEq, Except.ok.injEq] at h
      subst h
      exact mapOk_values amazonCompany s.all_jobs
        (amazonLoop_preserves fetch jl mp fuel amazonInit s (mapOk_nil _) hl)
    · exact absurd h (by simp)
    · cases h
  · intro o mj ms fuel jobs h
    unfold scrape_dassault at h
    dsimp only at h
    rcases hc : (crawlLoop o ms fuel [sitemapIndexUrl] [] [] []).res
        with urls | _ | _ <;> rw [hc] at h
    · simp only [Option.some.injEq, Except.ok.injEq] at h
      subst h
      exact mapOk_values dassaultCompany _ (dassaultDetailFold_ok o _)
    · exact absurd h (by simp)
    · cases h
  · intro entries jobs h
    unfold scrape_mathworks at h
    simp only [Except.ok.injEq] at h
    subst h
    intro j hj
    rcases mw_fold_mem entries [] j hj with hnil | ⟨e, _, rfl⟩
    · cases hnil
    · exact ⟨mkJobId_ne_nil _ _, rfl, _, rfl⟩

/-- A feed entry carrying a title and a link; listing it twice makes the
feed connector emit two Jobs with the same link-derived job id. -/
def dupEntry : FeedEntry := { title := some "T".data, link := some "u".data }

def okJobs : Except Unit (List Job) → List Job
  | .ok l => l
  | .error _ => []

/-- C2 counterexample: the feed connector's scrape output is NOT
duplicate-free — a feed repeating one entry (same link) yields two Jobs
whose job ids coincide. -/
theorem C2_counterexample :
    ¬ ((okJobs (scrape_mathworks (.ok [dupEntry, dupEntry]))).map Job.job_id).Nodup := by
  intro h
  simp only [scrape_mathworks, okJobs, dupEntry, List.foldl, Option.getD_some] at h
  rw [show pyStrip ['T'] = ['T'] from by decide] at h
  simp [List.nodup_cons] at h

/-- Closed witness for the job-id theorem at the stalling Amazon
scenario (one collected job). -/
theorem C2_witness :
    ([stallJob].map Job.job_id).Nodup ∧ stallJob.job_id ≠ [] ∧
    stallJob.company = amazonCompany :=
  ⟨(C2_job_ids.1 stallFetch (fun _ => none) none 4 [stallJob] (by rfl)).1,
   ((C2_job_ids.1 stallFetch (fun _ => none) none 4 [stallJob] (by rfl)).2
      stallJob (by decide)).1,
   ((C2_job_ids.1 stallFetch (fun _ => none) none 4 [stallJob] (by rfl)).2
      stallJob (by decide)).2.1⟩

/-- C8 (amended): every Job emitted by the paginated-API and sitemap
connectors carries a location that the Location Normalizer produced (or
absent); for the feed connector this holds except that a non-empty
pre-formatted `locationname` field is passed through stripped but
unvalidated. -/
theorem C8_locations :
    (∀ fetch jl mp fuel jobs, scrape_amazon fetch jl mp fuel = some (.ok jobs) →
      ∀ j ∈ jobs, canonicalLoc j.location) ∧
    (∀ o mj ms fuel jobs, scrape_dassault o mj ms fuel = some (.ok jobs) →
      ∀ j ∈ jobs, canonicalLoc j.location) ∧
    (∀ entries jobs, scrape_mathworks (.ok entries) = .ok jobs →
      ∀ j ∈ jobs, canonicalLoc j.location ∨
        ∃ e ∈ entries, pyStrip (e.locationname.getD []) ≠ [] ∧
          j.location = some (pyStrip (e.locationname.getD []))) := by
  refine ⟨?_, ?_, ?_⟩
  · intro fetch jl mp fuel jobs h j hj
    unfold scrape_amazon at h
    rcases hl : amazonLoop fetch jl mp fuel amazonInit with s | _ | s <;> rw [hl] at h
    · simp only [Option.some.injEq, Except.ok.injEq] at h
      subst h
      rcases List.mem_map.mp hj with ⟨p, hp, rfl⟩
      exact ((amazonLoop_preserves fetch jl mp fuel amazonInit s (mapOk_nil _) hl).2
        p hp).2
    · exact absurd h (by simp)
    · cases h
  · intro o mj ms fuel jobs h j hj
    unfold scrape_dassault at h
    dsimp only at h
    rcases hc : (crawlLoop o ms fuel [sitemapIndexUrl] [] [] []).res
        with urls | _ | _ <;> rw [hc] at h
    · simp only [Option.some.injEq, Except.ok.injEq] at h
      subst h
      rcases List.mem_map.mp hj with ⟨p, hp, rfl⟩
      exact ((dassaultDetailFold_ok o _).2 p hp).2
    · exact absurd h (by simp)
    · cases h
  · intro entries jobs h j hj
    unfold scrape_mathworks at h
    simp only [Except.ok.injEq] at h
    subst h
    rcases mw_fold_mem entries [] j hj with hnil | ⟨e, he, rfl⟩
    · cases hnil
    · rcases mw_location_ok e with hcan | ⟨hne, heq⟩
      · exact Or.inl hcan
      · exact Or.inr ⟨e, he, hne, heq⟩

/-- A feed entry with a free-text pre-formatted location field. -/
def weirdEntry : FeedEntry :=
  { title := some "T".data, link := some "u".data,
    locationname := some "somewhere nice".data }

/-- C8 counterexample: the feed connector passes a non-canonical
pre-formatted `locationname` through verbatim — `"somewhere nice"`
contains no hyphen, so no normalizer output equals it. -/
theorem C8_counterexample :
    (okJobs (scrape_mathworks (.ok [weirdEntry]))).map Job.location =
      [some "somewhere nice".data] ∧
    ¬ canonicalLoc (some "somewhere nice".data) := by
  constructor
  · decide
  · rintro ⟨c, s, ci, h⟩
    simp only [normalize_location] at h
    split at h
    · cases h
    · rw [Option.some.injEq] at h
      have hmem : '-' ∈ pyUpper (pyStrip (c.getD [])) ++
          '-' :: pyUpper (pyStrip (s.getD [])) ++ '-' :: _clean_city (ci.getD []) := by
        simp
      rw [h] at hmem
      exact absurd hmem (by decide)

/-- Closed witness for the location theorem: the stalling Amazon
scenario's job has a normalizer-produced (absent) location. -/
theorem C8_witness : canonicalLoc stallJob.location :=
  C8_locations.1 stallFetch (fun _ => none) none 4 [stallJob] (by rfl)
    stallJob (by decide)

/-! ## Error propagation (C1). -/

/-- When the XML parser never fails, the crawl can never end in a
propagated parse failure — in particular no transport failure of any
sitemap fetch aborts it. -/
theorem crawl_no_parsefail (o : DsOracles) (hp : ∀ x e, o.parseLocs x ≠ .error e)
    (cap : Option Nat) :
    ∀ fuel tv vis jobs tr, (crawlLoop o cap fuel tv vis jobs tr).res ≠ .parseFail := by
  intro fuel
  induction fuel with
  | zero =>
    intro tv vis jobs tr
    simp [crawlLoop]
  | succ n ih =>
    intro tv vis jobs tr
    rcases tv with _ | ⟨sm, rest⟩
    · simp [crawlLoop]
    · simp only [crawlLoop]
      by_cases hcap : capReached cap vis.length
      · rw [if_pos hcap]
        simp
      · rw [if_neg hcap]
        by_cases hv : sm ∈ vis
        · rw [if_pos hv]
          exact ih rest vis jobs tr
        · rw [if_neg hv]
          rcases hf : o.fetch sm with e | xml
          · exact ih rest (sm :: vis) jobs (tr ++ [sm])
          · dsimp only
            rcases hpp : o.parseLocs xml with e | locs
            · exact absurd hpp (hp xml e)
            · try rw [hpp]
              dsimp only
              exact ih _ (sm :: vis) _ (tr ++ [sm])

/-- Oracles whose sitemap XML parse always raises. -/
def oParseFail : DsOracles :=
  { fetch := fun _ => .ok "X".data, parseLocs := fun _ => .error (),
    isJobUrl := fun _ => false, soupTitle := fun _ => [], soupText := fun _ => [],
    findRefId := fun _ => none, findLoc := fun _ => none, findUrlId := fun _ => none }

/-- C1 (amended): in the paginated-API connector a transport error on ANY
page fetch — not only the first — propagates and fails the run; the feed
connector's single fetch propagates its failure; the sitemap connector
catches every per-sitemap and per-detail transport failure (given a
non-raising XML parser it can never fail), but an XML parse failure of
any fetched sitemap body does propagate. -/
theorem C1_error_propagation :
    (∀ (fetch : Nat → Except Unit AmazonResponse) (jl : Str → Option AmazonLocDict)
       (s : AmazonState) (e : Unit) (fuel : Nat),
      fetch s.offset = .error e → amazonLoop fetch jl none (fuel + 1) s = .failed) ∧
    (scrape_mathworks (.error ()) = .error ()) ∧
    (∀ (o : DsOracles) (mj ms : Option Nat) (fuel : Nat),
      (∀ x e, o.parseLocs x ≠ .error e) →
      scrape_dassault o mj ms fuel ≠ some (.error ())) ∧
    (scrape_dassault oParseFail none none 2 = some (.error ())) := by
  refine ⟨?_, rfl, ?_, rfl⟩
  · intro fetch jl s e fuel hf
    simp only [amazonLoop, amazonStep, capReached, Bool.false_eq_true, if_false, hf]
  · intro o mj ms fuel hp h
    unfold scrape_dassault at h
    dsimp only at h
    rcases hc : (crawlLoop o ms fuel [sitemapIndexUrl] [] [] []).res
        with urls | _ | _ <;> rw [hc] at h
    · simp at h
    · exact crawl_no_parsefail o hp ms fuel [sitemapIndexUrl] [] [] [] hc
    · cases h

def pageItem : AmazonItem :=
  { title := some "T".data, job_path := some "/p".data, id := some "1".data }

/-- First page: one job; every later page: a transport error. -/
def fetchFailPage2 : Nat → Except Unit AmazonResponse :=
  fun offset => if offset = 0 then .ok { jobs := [pageItem], hits := none } else .error ()

/-- C1 counterexample: the paginated-API connector does not guard its
later page fetches — page 1 succeeds and collects a job, page 2's
transport error propagates and the whole run fails instead of returning
the already-collected job. -/
theorem C1_counterexample :
    scrape_amazon fetchFailPage2 (fun _ => none) none 5 = some (.error ()) := by
  rfl

/-- Closed witness for the error-propagation theorem: a failing first
fetch fails the Amazon loop, and a stub sitemap crawl with failing
transport but sound parsing never fails the Dassault run. -/
theorem C1_witness :
    amazonLoop (fun _ => .error ()) (fun _ => none) none (0 + 1) amazonInit = .failed ∧
    scrape_dassault oStub (some 5) none 3 ≠ some (.error ()) :=
  ⟨C1_error_propagation.1 (fun _ => .error ()) (fun _ => none) amazonInit () 0 rfl,
   C1_error_propagation.2.2.1 oStub (some 5) none 3 (fun x e h => Except.noConfusion h)⟩
